import Mathlib

/-!
Shallow embedding of the two AlleleAnalyzer scripts,
`preprocessing/generate_gens_dfs/get_chr_tables.py` and
`manuscript_analyses/paper_figures/figure_scripts/ef_fig_1e.py`.

Python strings are modelled as `List Char`; pandas dataframes as lists of
records; the HDF5 container and the process-level control flow (skip,
uncaught exception, write) as explicit result values.  All definitions are
executable, so concrete runs can be checked by evaluation.
-/

set_option autoImplicit false

namespace AlleleAnalyzer

/-- Python `chrom_str.replace("chr", "")`, the branch of `norm_chr` taken when
`vcf_chrom` is true: scan left to right and delete every non-overlapping
occurrence of `"chr"`. -/
def stripChr : List Char → List Char
  | [] => []
  | [c] => [c]
  | [c, d] => [c, d]
  | c :: d :: e :: rest =>
    if c = 'c' ∧ d = 'h' ∧ e = 'r' then stripChr rest
    else c :: stripChr (d :: e :: rest)

/-- Python `"chr" in s` (substring containment), as used by the guard
`if "chr" in str(vars.chrom.iloc[0])` at line 143 of get_chr_tables.py. -/
def containsChr : List Char → Bool
  | [] => false
  | [_] => false
  | [_, _] => false
  | c :: d :: e :: rest =>
    if c = 'c' ∧ d = 'h' ∧ e = 'r' then true else containsChr (d :: e :: rest)

/-- Python `s.startswith("chr")`, applied by `main` to the string `vcf_chrom`
(lines 99 and 165 of get_chr_tables.py). -/
def detect_chrstart : List Char → Bool
  | c :: d :: e :: _ => decide (c = 'c' ∧ d = 'h' ∧ e = 'r')
  | _ => false

/-- Function `norm_chr(chrom_str, vcf_chrom)` of get_chr_tables.py: when
`vcf_chrom` is true it returns `chrom_str.replace("chr", "")`, otherwise
`"chr" + chrom_str`. -/
def norm_chr (chrom_str : List Char) (vcf_chrom : Bool) : List Char :=
  if vcf_chrom then stripChr chrom_str
  else 'c' :: 'h' :: 'r' :: chrom_str

/-- The chromosome name the extractor interpolates into the
`bcftools view -r` query string: `norm_chr(chrom, vcf_chrom.startswith("chr"))`
(lines 97-110, and equivalently 164-165, of get_chr_tables.py), where
`vcf_chrom` is whatever string the code holds for the source file.  Note the
code sets `vcf_chrom = str(subprocess.Popen(...))`: the string form of the
process object itself, not the output of the command. -/
def queried_name (chrom vcf_chrom : List Char) : List Char :=
  norm_chr chrom (detect_chrstart vcf_chrom)

/-- Python `re.split` for a single-character alternation pattern: split the
string at every character satisfying `p`.  The result is never empty. -/
def pySplit (p : Char → Bool) : List Char → List (List Char)
  | [] => [[]]
  | c :: cs =>
    match pySplit p cs with
    | [] => [[c]]
    | q :: qs => if p c then [] :: q :: qs else (c :: q) :: qs

/-- Separator characters of the pattern `re.split("/|\\|", ...)` in `het`. -/
def isGtSep (c : Char) : Bool := c == '/' || c == '|'

/-- Separator characters of the pattern `re.split(";|,", ...)` in
`fix_multiallelics`. -/
def isMultiSep (c : Char) : Bool := c == ',' || c == ';'

/-- Function `fix_multiallelics(cell)` of get_chr_tables.py: if the cell
contains "," or ";", return `re.split(";|,", cell)[0]`; otherwise return the
cell unchanged. -/
def fix_multiallelics (cell : List Char) : List Char :=
  if cell.any isMultiSep then (pySplit isMultiSep cell).headD [] else cell

/-- Function `het(genotype)` of get_chr_tables.py:
`gen1, gen2 = re.split("/|\\|", genotype); return gen1 != gen2`.  Tuple
unpacking raises a ValueError unless the split yields exactly two parts;
that failure is modelled as `none`. -/
def het (genotype : List Char) : Option Bool :=
  match pySplit isGtSep genotype with
  | [gen1, gen2] => some (decide (gen1 ≠ gen2))
  | _ => none

/-- One record of the extracted table, read back by
`pd.read_csv(..., names=["chrom", "pos", "ref", "alt", "genotype"])`.
All five cells are modelled as the tab-separated text fields they came from. -/
structure Row where
  chrom : List Char
  pos : List Char
  ref : List Char
  alt : List Char
  genotype : List Char
deriving DecidableEq

/-- The effect of `vars.applymap(fix_multiallelics)` on one record: the
cleanup hits every cell, all five columns. -/
def fixRow (r : Row) : Row :=
  ⟨fix_multiallelics r.chrom, fix_multiallelics r.pos, fix_multiallelics r.ref,
    fix_multiallelics r.alt, fix_multiallelics r.genotype⟩

/-- Python `vars.applymap(fix_multiallelics)` over the whole table. -/
def applymapFix (vars : List Row) : List Row :=
  vars.map fixRow

/-- Function `filter_hets(gens_df)` of get_chr_tables.py: compute
`het(row["genotype"])` for every row (a malformed genotype raises, modelled
as `none`), keep the rows where it is true, and return only the original
five columns (the helper column is dropped, which the `Row` result type
reflects). -/
def filter_hets : List Row → Option (List Row)
  | [] => some []
  | r :: rest =>
    match het r.genotype with
    | none => none
    | some b =>
      match filter_hets rest with
      | none => none
      | some out => some (if b then r :: out else out)

/-- Lines 143-144 of get_chr_tables.py: when the first extracted chromosome
name contains "chr", the code evaluates `norm_chr(x)` — one argument for a
two-parameter function — so Python raises a TypeError as soon as the `map`
calls the lambda; otherwise the branch is not taken and the table passes
through untouched. -/
def renorm_chrom (vars : List Row) : Except String (List Row) :=
  match vars with
  | [] => Except.ok []
  | r0 :: _ =>
    if containsChr r0.chrom then Except.error "TypeError"
    else Except.ok vars

/-- Outcome of processing one interval: skipped with nothing written
(`continue` in BED mode, `exit()` in single-locus mode), aborted by an
uncaught exception, or an entry written to the output store. -/
inductive IntervalResult where
  | skipped : IntervalResult
  | raised : String → IntervalResult
  | written : List Row → IntervalResult
deriving DecidableEq

/-- Per-interval body of the BED-mode loop (lines 130-154 of
get_chr_tables.py): `continue` when the raw extracted table is empty
(under either setting of `-f`), then the chr re-normalization step, then
`applymap(fix_multiallelics)` and, unless `-f` was given, `filter_hets`,
then `hdf_out.put`. -/
def processInterval (keepHom : Bool) (raw : List Row) : IntervalResult :=
  if raw.isEmpty then IntervalResult.skipped
  else
    match renorm_chrom raw with
    | Except.error msg => IntervalResult.raised msg
    | Except.ok vars =>
      if keepHom then IntervalResult.written (applymapFix vars)
      else
        match filter_hets (applymapFix vars) with
        | some out => IntervalResult.written out
        | none => IntervalResult.raised "ValueError"

/-- Single-locus body (lines 187-209 of get_chr_tables.py): the same
pipeline, but an empty raw table calls `exit()` (clean termination, no
output file) and there is no chr re-normalization step. -/
def processIntervalSingle (keepHom : Bool) (raw : List Row) : IntervalResult :=
  if raw.isEmpty then IntervalResult.skipped
  else if keepHom then IntervalResult.written (applymapFix raw)
  else
    match filter_hets (applymapFix raw) with
    | some out => IntervalResult.written out
    | none => IntervalResult.raised "ValueError"

/-- A homozygous extracted record, used as a concrete run input. -/
def homRowEx : Row := ⟨['1'], ['5'], ['A'], ['T'], ['G', '/', 'G']⟩

/-- A heterozygous extracted record, used as a concrete run input. -/
def hetRowEx : Row := ⟨['1'], ['7'], ['A'], ['T'], ['A', '/', 'T']⟩

/-- The list `cas_list` of ef_fig_1e.py. -/
def cas_list : List String :=
  ["SpCas9", "SpCas9_VRER", "SpCas9_EQR", "SpCas9_VQR_1", "SpCas9_VQR_2",
   "StCas9", "StCas9_2", "SaCas9", "SaCas9_KKH", "nmCas9", "cjCas9", "cpf1"]

/-- One cohort member of a per-gene targetability table: the boolean
`targ_*` columns the aggregator queries. -/
structure TargRow where
  targ_all : Bool
  targ_SpCas9 : Bool
  targ_SpCas9_VRER : Bool
  targ_SpCas9_EQR : Bool
  targ_SpCas9_VQR_1 : Bool
  targ_SpCas9_VQR_2 : Bool
  targ_StCas9 : Bool
  targ_StCas9_2 : Bool
  targ_SaCas9 : Bool
  targ_SaCas9_KKH : Bool
  targ_nmCas9 : Bool
  targ_cjCas9 : Bool
  targ_cpf1 : Bool
deriving DecidableEq

/-- Column lookup performed by `df.query(f"targ_{cas}")`: the predicate of
the `targ_<cas>` column.  The aggregator only ever looks up names drawn from
`cas_list`. -/
def targCol (cas : String) (r : TargRow) : Bool :=
  if cas = "SpCas9" then r.targ_SpCas9
  else if cas = "SpCas9_VRER" then r.targ_SpCas9_VRER
  else if cas = "SpCas9_EQR" then r.targ_SpCas9_EQR
  else if cas = "SpCas9_VQR_1" then r.targ_SpCas9_VQR_1
  else if cas = "SpCas9_VQR_2" then r.targ_SpCas9_VQR_2
  else if cas = "StCas9" then r.targ_StCas9
  else if cas = "StCas9_2" then r.targ_StCas9_2
  else if cas = "SaCas9" then r.targ_SaCas9
  else if cas = "SaCas9_KKH" then r.targ_SaCas9_KKH
  else if cas = "nmCas9" then r.targ_nmCas9
  else if cas = "cjCas9" then r.targ_cjCas9
  else if cas = "cpf1" then r.targ_cpf1
  else false

/-- One row of the aggregated output: (Cas label, gene, fraction of the
cohort targetable).  The Python float division is modelled as exact
rational division. -/
structure SummaryRow where
  cas : String
  gene : String
  perc : ℚ
deriving DecidableEq

/-- Python `df.query(cond).shape[0] / 2504.0` of ef_fig_1e.py. -/
def perc (df : List TargRow) (cond : TargRow → Bool) : ℚ :=
  ((df.filter cond).length : ℚ) / 2504

/-- Rows the `for cas in cas_list` loop of ef_fig_1e.py appends for one
`cas`: the `SpCas9_VQR_1` iteration emits the merged `SpCas9_VQR` row with
the OR of the two sub-case columns, the `SpCas9_VQR_2` iteration emits
nothing, every other iteration emits one row from its own column. -/
def casRow (gene : String) (df : List TargRow) (cas : String) : List SummaryRow :=
  if cas = "SpCas9_VQR_1" then
    [⟨"SpCas9_VQR", gene,
      perc df (fun r => r.targ_SpCas9_VQR_1 || r.targ_SpCas9_VQR_2)⟩]
  else if cas = "SpCas9_VQR_2" then []
  else [⟨cas, gene, perc df (fun r => targCol cas r)⟩]

/-- All summary rows emitted for one gene whose table was found: the "all"
row first (from `targ_all`), then the `cas_list` loop. -/
def perGeneRows (gene : String) (df : List TargRow) : List SummaryRow :=
  ⟨"all", gene, perc df (fun r => r.targ_all)⟩ :: cas_list.flatMap (casRow gene df)

/-- The whole aggregation loop of ef_fig_1e.py: per gene, either append its
summary rows, or — on `FileNotFoundError` — record the gene as not
evaluated and continue.  Returns (summary rows, not_eval), both in
processing order.  The function is total: a missing table never aborts the
run. -/
def aggregate : List String → (String → Option (List TargRow)) → List SummaryRow × List String
  | [], _ => ([], [])
  | gene :: rest, tables =>
    let acc := aggregate rest tables
    match tables gene with
    | some df => (perGeneRows gene df ++ acc.1, acc.2)
    | none => (acc.1, gene :: acc.2)

/-- A concrete table-lookup environment for witness runs: gene "GENE_A" has
no table file, every other gene has an empty table. -/
def tablesEx : String → Option (List TargRow) :=
  fun g => if g = "GENE_A" then none else some []

/-! Helper lemmas about the embedded operations. -/

theorem pySplit_ne_nil (p : Char → Bool) (s : List Char) : pySplit p s ≠ [] := by
  cases s with
  | nil => simp [pySplit]
  | cons c cs =>
    rw [pySplit]
    split
    · simp
    · split <;> simp

theorem pySplit_headD (p : Char → Bool) (s : List Char) :
    (pySplit p s).headD [] = s.takeWhile (fun c => !(p c)) := by
  induction s with
  | nil => simp [pySplit]
  | cons c cs ih =>
    rw [pySplit]
    split
    next h => exact absurd h (pySplit_ne_nil p cs)
    next q qs h =>
      rw [h] at ih
      simp only [List.headD_cons] at ih
      rw [List.takeWhile_cons]
      by_cases hc : p c = true
      · simp [hc]
      · simp only [Bool.not_eq_true] at hc
        simp [hc, ih]

theorem pySplit_eq_single (p : Char → Bool) (s : List Char)
    (h : s.all (fun c => !(p c)) = true) : pySplit p s = [s] := by
  induction s with
  | nil => rfl
  | cons c cs ih =>
    simp only [List.all_cons, Bool.and_eq_true, Bool.not_eq_true'] at h
    rw [pySplit, ih h.2]
    simp [h.1]

theorem pySplit_append (p : Char → Bool) (l : List Char) (sep : Char) (r : List Char)
    (hl : l.all (fun c => !(p c)) = true) (hsep : p sep = true) :
    pySplit p (l ++ sep :: r) = l :: pySplit p r := by
  induction l with
  | nil =>
    rw [List.nil_append, pySplit]
    cases h : pySplit p r with
    | nil => exact absurd h (pySplit_ne_nil p r)
    | cons q qs => simp [hsep]
  | cons c l2 ih =>
    simp only [List.all_cons, Bool.and_eq_true, Bool.not_eq_true'] at hl
    rw [List.cons_append, pySplit, ih hl.2]
    simp [hl.1]

theorem stripChr_chr_cons (s : List Char) :
    stripChr ('c' :: 'h' :: 'r' :: s) = stripChr s := by
  rw [stripChr]
  simp

theorem stripChr_of_not_contains (s : List Char) :
    containsChr s = false → stripChr s = s := by
  induction s using stripChr.induct with
  | case1 => intro h; rfl
  | case2 c => intro h; rfl
  | case3 c d => intro h; rfl
  | case4 c d e rest hcond ih =>
    intro h
    rw [containsChr, if_pos hcond] at h
    exact absurd h (by simp)
  | case5 c d e rest hcond ih =>
    intro h
    rw [containsChr, if_neg hcond] at h
    rw [stripChr, if_neg hcond, ih h]

theorem perGeneRows_eq (gene : String) (df : List TargRow) :
    perGeneRows gene df =
      [⟨"all", gene, perc df (fun r => r.targ_all)⟩,
       ⟨"SpCas9", gene, perc df (fun r => r.targ_SpCas9)⟩,
       ⟨"SpCas9_VRER", gene, perc df (fun r => r.targ_SpCas9_VRER)⟩,
       ⟨"SpCas9_EQR", gene, perc df (fun r => r.targ_SpCas9_EQR)⟩,
       ⟨"SpCas9_VQR", gene,
         perc df (fun r => r.targ_SpCas9_VQR_1 || r.targ_SpCas9_VQR_2)⟩,
       ⟨"StCas9", gene, perc df (fun r => r.targ_StCas9)⟩,
       ⟨"StCas9_2", gene, perc df (fun r => r.targ_StCas9_2)⟩,
       ⟨"SaCas9", gene, perc df (fun r => r.targ_SaCas9)⟩,
       ⟨"SaCas9_KKH", gene, perc df (fun r => r.targ_SaCas9_KKH)⟩,
       ⟨"nmCas9", gene, perc df (fun r => r.targ_nmCas9)⟩,
       ⟨"cjCas9", gene, perc df (fun r => r.targ_cjCas9)⟩,
       ⟨"cpf1", gene, perc df (fun r => r.targ_cpf1)⟩] := by
  rfl

theorem perGeneRows_gene_eq (g : String) (df : List TargRow) :
    ∀ row ∈ perGeneRows g df, row.gene = g := by
  intro row hrow
  rw [perGeneRows_eq] at hrow
  simp only [List.mem_cons, List.not_mem_nil, or_false] at hrow
  rcases hrow with rfl | rfl | rfl | rfl | rfl | rfl | rfl | rfl | rfl | rfl | rfl | rfl <;> rfl

theorem aggregate_not_eval_mem (genes : List String)
    (tables : String → Option (List TargRow)) (g : String)
    (hg : g ∈ genes) (hnone : tables g = none) :
    g ∈ (aggregate genes tables).2 := by
  induction genes with
  | nil => exact absurd hg (List.not_mem_nil g)
  | cons gene rest ih =>
    rw [aggregate]
    rcases List.mem_cons.mp hg with rfl | hmem
    · rw [hnone]
      exact List.mem_cons_self _ _
    · cases h : tables gene <;> simp [ih hmem]

theorem aggregate_row_gene (genes : List String)
    (tables : String → Option (List TargRow)) (row : SummaryRow)
    (hrow : row ∈ (aggregate genes tables).1) :
    ∃ g df, g ∈ genes ∧ tables g = some df ∧ row.gene = g := by
  induction genes with
  | nil => exact absurd hrow (List.not_mem_nil row)
  | cons gene rest ih =>
    rw [aggregate] at hrow
    cases h : tables gene with
    | none =>
      rw [h] at hrow
      obtain ⟨g, df, hmem, hsome, hgene⟩ := ih hrow
      exact ⟨g, df, List.mem_cons_of_mem gene hmem, hsome, hgene⟩
    | some df =>
      rw [h] at hrow
      rcases List.mem_append.mp hrow with hleft | hright
      · exact ⟨gene, df, List.mem_cons_self gene rest, h,
          perGeneRows_gene_eq gene df row hleft⟩
      · obtain ⟨g, df2, hmem, hsome, hgene⟩ := ih hright
        exact ⟨g, df2, List.mem_cons_of_mem gene hmem, hsome, hgene⟩

theorem aggregate_all_row_mem (genes : List String)
    (tables : String → Option (List TargRow)) (g : String) (df : List TargRow)
    (hg : g ∈ genes) (hsome : tables g = some df) :
    (⟨"all", g, perc df (fun r => r.targ_all)⟩ : SummaryRow) ∈
      (aggregate genes tables).1 := by
  induction genes with
  | nil => exact absurd hg (List.not_mem_nil g)
  | cons gene rest ih =>
    rw [aggregate]
    rcases List.mem_cons.mp hg with rfl | hmem
    · rw [hsome]
      exact List.mem_append_left _ (List.mem_cons_self _ _)
    · cases h : tables gene with
      | none => exact ih hmem
      | some df2 => exact List.mem_append_right _ (ih hmem)

/-! Claim theorems. -/

/-- C1: the claim says the extractor detects whether the source VCF carries a
"chr" prefix from one data line and rewrites the requested name to match that
convention.  The code cannot do this: the string it inspects is
`str(subprocess.Popen(...))` — the representation of the process object,
which begins with a `<` — so the detection is false for every source file,
and the queried name always gains a "chr" prefix (conjuncts 1 and 2, shown on
requested name "chr1", giving the query name "chrchr1").  Moreover `norm_chr`
itself moves against the convention: with the prefix detected it strips the
prefix, and with no prefix detected it adds one (conjuncts 3 and 4). -/
theorem queried_name_defies_vcf_convention :
    (∀ rest : List Char, detect_chrstart ('<' :: rest) = false) ∧
    queried_name ['c', 'h', 'r', '1'] ['<', 'P', 'o', 'p', 'e', 'n', '>'] =
      ['c', 'h', 'r', 'c', 'h', 'r', '1'] ∧
    norm_chr ['c', 'h', 'r', '1'] true = ['1'] ∧
    norm_chr ['1'] false = ['c', 'h', 'r', '1'] := by
  refine ⟨?_, by decide, by decide, by decide⟩
  intro rest
  cases rest with
  | nil => rfl
  | cons d t =>
    cases t with
    | nil => rfl
    | cons e t2 =>
      show decide ('<' = 'c' ∧ d = 'h' ∧ e = 'r') = false
      exact decide_eq_false (fun h => absurd h.1 (by decide))

/-- C2, counterexample: an interval whose extracted table holds a single
homozygous record has zero rows after heterozygosity filtering, yet the code
(which only tests the raw table for emptiness) still writes an entry — an
empty one — in BED mode, and still writes the output file in single-locus
mode. -/
theorem written_despite_empty_post_filter :
    filter_hets (applymapFix [homRowEx]) = some [] ∧
    processInterval false [homRowEx] = IntervalResult.written [] ∧
    processIntervalSingle false [homRowEx] = IntervalResult.written [] ∧
    IntervalResult.written ([] : List Row) ≠ IntervalResult.skipped := by
  refine ⟨by decide, by decide, by decide, by decide⟩

/-- C2, amended: the interval is skipped (no entry in BED mode, clean
`exit()` with no output file in single-locus mode) exactly when the RAW
extracted table — before multiallelic cleanup and heterozygosity
filtering — has zero rows. -/
theorem skipped_iff_raw_empty (keepHom : Bool) (raw : List Row) :
    (processInterval keepHom raw = IntervalResult.skipped ↔ raw = []) ∧
    (processIntervalSingle keepHom raw = IntervalResult.skipped ↔ raw = []) := by
  cases raw with
  | nil => simp [processInterval, processIntervalSingle]
  | cons r t =>
    have h1 : processInterval keepHom (r :: t) ≠ IntervalResult.skipped := by
      rw [processInterval]
      simp only [List.isEmpty_cons, Bool.false_eq_true, if_false]
      cases renorm_chrom (r :: t) with
      | error msg => simp
      | ok vars =>
        cases keepHom with
        | false =>
          simp only [Bool.false_eq_true, if_false]
          cases filter_hets (applymapFix vars) <;> simp
        | true => simp
    have h2 : processIntervalSingle keepHom (r :: t) ≠ IntervalResult.skipped := by
      rw [processIntervalSingle]
      simp only [List.isEmpty_cons, Bool.false_eq_true, if_false]
      cases keepHom with
      | false =>
        simp only [Bool.false_eq_true, if_false]
        cases filter_hets (applymapFix (r :: t)) <;> simp
      | true => simp
    exact ⟨⟨fun h => absurd h h1, fun h => absurd h (List.cons_ne_nil r t)⟩,
           ⟨fun h => absurd h h2, fun h => absurd h (List.cons_ne_nil r t)⟩⟩

/-- C3, counterexample: the claim asserts idempotence and reversibility of
`norm_chr` for every chromosome name string.  Adding the prefix twice is not
the same as adding it once (input "1"), and strip-then-add does not recover
a name holding two "chr" occurrences (input "chrchr1"). -/
theorem norm_chr_not_idempotent :
    norm_chr (norm_chr ['1'] false) false ≠ norm_chr ['1'] false ∧
    norm_chr (norm_chr ['c', 'h', 'r', 'c', 'h', 'r', '1'] true) false ≠
      ['c', 'h', 'r', 'c', 'h', 'r', '1'] := by
  decide

/-- C3, amended: `norm_chr` maps "chr1" with `vcf_chrom = true` to "1" and
"1" with `vcf_chrom = false` to "chr1"; for every chromosome name containing
no occurrence of "chr", adding the prefix then stripping recovers the name,
stripping then adding recovers a name of the form "chr" + suffix, and the
strip direction applied twice equals applying it once.  (For arbitrary
strings — extra "chr" occurrences, or the add direction applied twice —
reversibility and idempotence fail, per the counterexample.) -/
theorem norm_chr_roundtrip_restricted :
    norm_chr ['c', 'h', 'r', '1'] true = ['1'] ∧
    norm_chr ['1'] false = ['c', 'h', 'r', '1'] ∧
    ∀ s : List Char, containsChr s = false →
      (norm_chr (norm_chr s false) true = s ∧
       norm_chr (norm_chr ('c' :: 'h' :: 'r' :: s) true) false =
         'c' :: 'h' :: 'r' :: s ∧
       norm_chr (norm_chr s true) true = norm_chr s true) := by
  refine ⟨by decide, by decide, ?_⟩
  intro s hs
  have hstrip := stripChr_of_not_contains s hs
  refine ⟨?_, ?_, ?_⟩
  · show stripChr ('c' :: 'h' :: 'r' :: s) = s
    rw [stripChr_chr_cons, hstrip]
  · show 'c' :: 'h' :: 'r' :: stripChr ('c' :: 'h' :: 'r' :: s) =
      'c' :: 'h' :: 'r' :: s
    rw [stripChr_chr_cons, hstrip]
  · show stripChr (stripChr s) = stripChr s
    rw [hstrip]
    exact hstrip

/-- Witness for the amended C3 at the concrete name "1". -/
theorem norm_chr_roundtrip_restricted_witness :
    norm_chr (norm_chr ['1'] false) true = ['1'] :=
  (norm_chr_roundtrip_restricted.2.2 ['1'] (by decide)).1

/-- C4: for every genotype string with exactly one separator (`/` or `|`),
written `l ++ sep :: r` with `l` and `r` separator-free, `het` returns
exactly whether the left component differs from the right component. -/
theorem het_splits_on_single_separator (l r : List Char) (sep : Char)
    (hsep : isGtSep sep = true)
    (hl : l.all (fun c => !(isGtSep c)) = true)
    (hr : r.all (fun c => !(isGtSep c)) = true) :
    het (l ++ sep :: r) = some (decide (l ≠ r)) := by
  rw [het, pySplit_append isGtSep l sep r hl hsep, pySplit_eq_single isGtSep r hr]

/-- Witness for C4 at the genotype "A/T". -/
theorem het_splits_on_single_separator_witness :
    het ['A', '/', 'T'] = some true :=
  het_splits_on_single_separator ['A'] ['T'] '/' (by decide) (by decide) (by decide)

/-- C5: when a cell contains "," or ";", `fix_multiallelics` keeps exactly
the prefix before the first such separator; a separator-free cell is
returned unchanged; and `applymap(fix_multiallelics)` applies the cleanup to
every cell of every record, in all five columns, not only the allele
columns. -/
theorem fix_multiallelics_first_token_all_columns :
    (∀ cell : List Char, cell.any isMultiSep = true →
        fix_multiallelics cell = cell.takeWhile (fun c => !(isMultiSep c))) ∧
    (∀ cell : List Char, cell.any isMultiSep = false →
        fix_multiallelics cell = cell) ∧
    (∀ vars : List Row,
        (applymapFix vars).map Row.chrom =
          vars.map (fun r => fix_multiallelics r.chrom) ∧
        (applymapFix vars).map Row.pos =
          vars.map (fun r => fix_multiallelics r.pos) ∧
        (applymapFix vars).map Row.ref =
          vars.map (fun r => fix_multiallelics r.ref) ∧
        (applymapFix vars).map Row.alt =
          vars.map (fun r => fix_multiallelics r.alt) ∧
        (applymapFix vars).map Row.genotype =
          vars.map (fun r => fix_multiallelics r.genotype)) := by
  refine ⟨?_, ?_, ?_⟩
  · intro cell h
    rw [fix_multiallelics, if_pos h, pySplit_headD]
  · intro cell h
    rw [fix_multiallelics, if_neg (by simp [h])]
  · intro vars
    refine ⟨?_, ?_, ?_, ?_, ?_⟩ <;>
      simp [applymapFix, fixRow, List.map_map, Function.comp]

/-- Witness for C5 at the cell "A,T" (kept prefix "A"). -/
theorem fix_multiallelics_first_token_witness :
    fix_multiallelics ['A', ',', 'T'] =
      (['A', ',', 'T'] : List Char).takeWhile (fun c => !(isMultiSep c)) :=
  fix_multiallelics_first_token_all_columns.1 ['A', ',', 'T'] (by decide)

/-- C6: when `filter_hets` succeeds (every genotype is well formed), its
output never has more rows than its input, every retained row passes the
heterozygosity test, and every retained row is one of the input rows with
exactly the original five columns — which the `Row` result type carries, the
helper column having been dropped. -/
theorem filter_hets_sound (gens_df out : List Row)
    (h : filter_hets gens_df = some out) :
    out.length ≤ gens_df.length ∧
    (∀ r ∈ out, het r.genotype = some true) ∧
    (∀ r ∈ out, r ∈ gens_df) := by
  induction gens_df generalizing out with
  | nil =>
    rw [filter_hets] at h
    injection h with h
    subst h
    exact ⟨Nat.le_refl 0, by simp, by simp⟩
  | cons r rest ih =>
    rw [filter_hets] at h
    split at h
    next hh => exact absurd h (by simp)
    next b hh =>
      split at h
      next hf => exact absurd h (by simp)
      next o hf =>
        injection h with h
        obtain ⟨ihlen, ihhet, ihmem⟩ := ih o hf
        cases b with
        | false =>
          rw [if_neg (by simp)] at h
          subst h
          exact ⟨Nat.le_succ_of_le ihlen, ihhet,
            fun x hx => List.mem_cons_of_mem r (ihmem x hx)⟩
        | true =>
          rw [if_pos rfl] at h
          subst h
          refine ⟨Nat.succ_le_succ ihlen, ?_, ?_⟩
          · intro x hx
            rcases List.mem_cons.mp hx with rfl | hx2
            · exact hh
            · exact ihhet x hx2
          · intro x hx
            rcases List.mem_cons.mp hx with rfl | hx2
            · exact List.mem_cons_self x rest
            · exact List.mem_cons_of_mem r (ihmem x hx2)

/-- Witness for C6 on a two-row table with one heterozygous and one
homozygous record. -/
theorem filter_hets_sound_witness :
    ([hetRowEx] : List Row).length ≤ ([hetRowEx, homRowEx] : List Row).length ∧
    (∀ r ∈ ([hetRowEx] : List Row), het r.genotype = some true) ∧
    (∀ r ∈ ([hetRowEx] : List Row), r ∈ ([hetRowEx, homRowEx] : List Row)) :=
  filter_hets_sound [hetRowEx, homRowEx] [hetRowEx] (by decide)

/-- C7: for every gene whose table is found, the emitted rows are exactly
the "all" row first, then one row per enzyme in enumeration order, with the
two `SpCas9_VQR` sub-cases merged into the single row labeled "SpCas9_VQR"
whose condition is the OR of the two sub-case columns; no row is labeled
`SpCas9_VQR_1` or `SpCas9_VQR_2`. -/
theorem perGeneRows_merges_vqr (gene : String) (df : List TargRow) :
    perGeneRows gene df =
      [⟨"all", gene, perc df (fun r => r.targ_all)⟩,
       ⟨"SpCas9", gene, perc df (fun r => r.targ_SpCas9)⟩,
       ⟨"SpCas9_VRER", gene, perc df (fun r => r.targ_SpCas9_VRER)⟩,
       ⟨"SpCas9_EQR", gene, perc df (fun r => r.targ_SpCas9_EQR)⟩,
       ⟨"SpCas9_VQR", gene,
         perc df (fun r => r.targ_SpCas9_VQR_1 || r.targ_SpCas9_VQR_2)⟩,
       ⟨"StCas9", gene, perc df (fun r => r.targ_StCas9)⟩,
       ⟨"StCas9_2", gene, perc df (fun r => r.targ_StCas9_2)⟩,
       ⟨"SaCas9", gene, perc df (fun r => r.targ_SaCas9)⟩,
       ⟨"SaCas9_KKH", gene, perc df (fun r => r.targ_SaCas9_KKH)⟩,
       ⟨"nmCas9", gene, perc df (fun r => r.targ_nmCas9)⟩,
       ⟨"cjCas9", gene, perc df (fun r => r.targ_cjCas9)⟩,
       ⟨"cpf1", gene, perc df (fun r => r.targ_cpf1)⟩] ∧
    (∀ row ∈ perGeneRows gene df,
        row.cas ≠ "SpCas9_VQR_1" ∧ row.cas ≠ "SpCas9_VQR_2") := by
  refine ⟨perGeneRows_eq gene df, ?_⟩
  intro row hrow
  rw [perGeneRows_eq] at hrow
  simp only [List.mem_cons, List.not_mem_nil, or_false] at hrow
  rcases hrow with rfl | rfl | rfl | rfl | rfl | rfl | rfl | rfl | rfl | rfl | rfl | rfl <;>
    exact ⟨by simp, by simp⟩

/-- Witness for C7: the first emitted row of a found gene is the "all" row,
and it is labeled neither `SpCas9_VQR_1` nor `SpCas9_VQR_2`. -/
theorem perGeneRows_merges_vqr_witness :
    (⟨"all", "GENE_B", perc [] (fun r => r.targ_all)⟩ : SummaryRow).cas ≠
        "SpCas9_VQR_1" ∧
    (⟨"all", "GENE_B", perc [] (fun r => r.targ_all)⟩ : SummaryRow).cas ≠
        "SpCas9_VQR_2" :=
  (perGeneRows_merges_vqr "GENE_B" []).2 _ (List.mem_cons_self _ _)

theorem casRow_zero_mem (gene : String) (df : List TargRow) (cas : String)
    (hmem : cas ∈ cas_list) (h1 : cas ≠ "SpCas9_VQR_1") (h2 : cas ≠ "SpCas9_VQR_2")
    (hlen : (df.filter (fun r => targCol cas r)).length = 0) :
    (⟨cas, gene, 0⟩ : SummaryRow) ∈ perGeneRows gene df := by
  have hp : perc df (fun r => targCol cas r) = 0 := by
    rw [perc, hlen]
    norm_num
  rw [perGeneRows]
  refine List.mem_cons_of_mem _ ?_
  rw [List.mem_flatMap]
  refine ⟨cas, hmem, ?_⟩
  rw [casRow, if_neg h1, if_neg h2, hp]
  exact List.mem_singleton.mpr rfl

/-- C8: every emitted summary row's fraction is the count of cohort rows
satisfying the row's condition divided by the constant 2504, and when that
count is zero the fraction is exactly 0; a (gene, enzyme) pair whose column
holds no targetable member still yields its row — with fraction 0 — rather
than being omitted, both for the ordinary enzymes and for the merged
`SpCas9_VQR` row. -/
theorem summary_fraction_over_2504 (gene : String) (df : List TargRow) :
    (∀ row ∈ perGeneRows gene df, ∃ cond : TargRow → Bool,
        row.perc = ((df.filter cond).length : ℚ) / 2504 ∧
        ((df.filter cond).length = 0 → row.perc = 0)) ∧
    (∀ cas ∈ cas_list, cas ≠ "SpCas9_VQR_1" → cas ≠ "SpCas9_VQR_2" →
        (df.filter (fun r => targCol cas r)).length = 0 →
        (⟨cas, gene, 0⟩ : SummaryRow) ∈ perGeneRows gene df) ∧
    ((df.filter (fun r => r.targ_SpCas9_VQR_1 || r.targ_SpCas9_VQR_2)).length = 0 →
        (⟨"SpCas9_VQR", gene, 0⟩ : SummaryRow) ∈ perGeneRows gene df) := by
  refine ⟨?_, ?_, ?_⟩
  · intro row hrow
    rw [perGeneRows_eq] at hrow
    simp only [List.mem_cons, List.not_mem_nil, or_false] at hrow
    rcases hrow with rfl | rfl | rfl | rfl | rfl | rfl | rfl | rfl | rfl | rfl | rfl | rfl <;>
      exact ⟨_, rfl, fun h0 => by simp [perc, h0]⟩
  · intro cas hmem h1 h2 hlen
    exact casRow_zero_mem gene df cas hmem h1 h2 hlen
  · intro hlen
    have hp : perc df (fun r => r.targ_SpCas9_VQR_1 || r.targ_SpCas9_VQR_2) = 0 := by
      rw [perc, hlen]
      norm_num
    rw [perGeneRows_eq, ← hp]
    simp

/-- Witness for C8: on an empty table, gene "GENE_B" and enzyme "SpCas9"
still yield the row with fraction exactly 0. -/
theorem summary_fraction_over_2504_witness :
    (⟨"SpCas9", "GENE_B", 0⟩ : SummaryRow) ∈ perGeneRows "GENE_B" [] :=
  (summary_fraction_over_2504 "GENE_B" []).2.1 "SpCas9" (by decide) (by decide)
    (by decide) rfl

/-- C9: a gene in the input list whose table lookup fails lands in the
not-evaluated list, contributes no row to the summary (no emitted row
carries its name), and does not stop the loop: every other gene whose table
is found still contributes its rows (its "all" row shown here).  The
aggregation function is total, so no fatal error is possible. -/
theorem missing_table_gene_skipped (genes_eval : List String)
    (tables : String → Option (List TargRow)) (g : String)
    (hg : g ∈ genes_eval) (hnone : tables g = none) :
    g ∈ (aggregate genes_eval tables).2 ∧
    (∀ row ∈ (aggregate genes_eval tables).1, row.gene ≠ g) ∧
    (∀ g2 df, g2 ∈ genes_eval → tables g2 = some df →
        (⟨"all", g2, perc df (fun r => r.targ_all)⟩ : SummaryRow) ∈
          (aggregate genes_eval tables).1) := by
  refine ⟨aggregate_not_eval_mem _ _ _ hg hnone, ?_, ?_⟩
  · intro row hrow hEq
    obtain ⟨g2, df, hmem, hsome, hgene⟩ := aggregate_row_gene _ _ _ hrow
    have hgg : g2 = g := hgene.symm.trans hEq
    rw [hgg, hnone] at hsome
    exact Option.noConfusion hsome
  · intro g2 df hmem hsome
    exact aggregate_all_row_mem _ _ _ _ hmem hsome

/-- Witness for C9: with "GENE_A" lacking a table and "GENE_B" having one,
"GENE_A" is recorded as not evaluated. -/
theorem missing_table_gene_skipped_witness :
    "GENE_A" ∈ (aggregate ["GENE_A", "GENE_B"] tablesEx).2 :=
  (missing_table_gene_skipped ["GENE_A", "GENE_B"] tablesEx "GENE_A"
    (by decide) (by decide)).1

/-- C10: in BED mode, whenever the first extracted record's chromosome
contains "chr", the re-normalization step calls `norm_chr` with one argument
(the function takes two) and the run raises a TypeError instead of stripping
the prefix; when no extracted chromosome name contains "chr" the branch is
never entered and the step is safe, returning the table unchanged. -/
theorem renorm_chrom_typeerror (vars : List Row) :
    (∀ r0, vars.head? = some r0 → containsChr r0.chrom = true →
        renorm_chrom vars = Except.error "TypeError") ∧
    ((∀ r ∈ vars, containsChr r.chrom = false) →
        renorm_chrom vars = Except.ok vars) := by
  constructor
  · intro r0 hhead hchr
    cases vars with
    | nil => exact Option.noConfusion hhead
    | cons v t =>
      rw [List.head?_cons] at hhead
      injection hhead with hv
      subst hv
      rw [renorm_chrom, if_pos hchr]
  · intro hall
    cases vars with
    | nil => rfl
    | cons v t =>
      rw [renorm_chrom, if_neg (by simp [hall v (List.mem_cons_self v t)])]

/-- Witness for C10: a one-row table whose chromosome is "chr1" raises. -/
theorem renorm_chrom_typeerror_witness :
    renorm_chrom [⟨['c', 'h', 'r', '1'], ['5'], ['A'], ['T'], ['A', '/', 'T']⟩] =
      Except.error "TypeError" :=
  (renorm_chrom_typeerror _).1 _ rfl (by decide)

end AlleleAnalyzer
